import Mathlib

/-!
Verification of the in-memory TF-IDF search index of the repository
(src/src/utils/index.py together with the record types of
src/src/utils/typedefs.py).

Modelling conventions.

Numeric domain: the Python code computes with IEEE doubles; the values it
manipulates are produced by field operations together with the two
irrational primitives `math.sqrt` (inside sklearn L2 normalisation) and
`math.log` (inside the smoothed idf weight).  The development is therefore
parametrised over an arbitrary `LinearOrderedField K` and over two
arbitrary functions `sqrtFn logFn : K → K` standing for those primitives.
Every theorem below is proved for all such `K`, `sqrtFn`, `logFn`; in
particular it holds for `K := ℝ`, `sqrtFn := Real.sqrt`,
`logFn := Real.log`, which is the exact-real reading of the code.  None of
the verified claims depends on the numeric value of a square root or a
logarithm.  Witnesses instantiate `K := ℚ` with simple computable
stand-ins, which keeps every definition executable.

Python values: a chunk field holding a Python string is modelled as
`some s`; `none` models a value (Python `None`, an `int`, a nested
dataclass) that is not a string and that `TfidfVectorizer` rejects with an
exception when asked to process it as a document.  Fallible operations
(a raised exception) are modelled with `Option`: `none` is the raising
run, `some` the normal return.

numpy tie order: `np.argsort` / `np.argpartition` leave the relative
order of equal keys unspecified.  The model fixes the canonical stable
determinisation: a stable descending sort of the indices (the composite
`argpartition(s, -k)[-k:]` then `argsort` of the negated selected scores
is modelled as `take k` of that stable descending argsort, including the
`k = 0` case where the Python slice `[-0:]` keeps the whole array).
-/

namespace TfidfIndex

/-- Record `ArticleInfo` of typedefs.py: url, title and the stable document
name used as the grouping key. -/
structure ArticleInfo where
  url : String
  title : String
  name : String
deriving DecidableEq, Repr

/-- Record `ArticleSection` of typedefs.py. -/
structure ArticleSection where
  id : String
  title : String
  text : String
  url : String
deriving DecidableEq, Repr

/-- Record `Article` of typedefs.py. -/
structure Article where
  info : ArticleInfo
  summary : String
  sections : List ArticleSection
deriving DecidableEq, Repr

/-- Record `ArticleChunk` of typedefs.py.  `chunk_text` is `Option String`:
`some s` is a Python string, `none` is Python `None` (null text). -/
structure ArticleChunk where
  chunk_id : String
  chunk_text : Option String
  n_tokens : Nat
  article_section : ArticleSection
  article : Article
deriving DecidableEq, Repr

instance : Inhabited ArticleChunk :=
  ⟨⟨"", some "", 0, ⟨"", "", "", ""⟩, ⟨⟨"", "", ""⟩, "", []⟩⟩⟩

/-- Method `DictMixin.get` specialised to `ArticleChunk`, as used by
`Index.fit` via `doc.get(field, '')`: `getattr(self, key, '')` returns the
attribute value when the attribute exists (for `chunk_text` possibly a
null, for the non-string attributes `n_tokens`, `article_section`,
`article` a non-string value, both of which the vectorizer rejects —
modelled as `none`) and the default empty string when the named attribute
is absent from the record. -/
def ArticleChunk.pyget (c : ArticleChunk) (field : String) : Option String :=
  if field = "chunk_text" then c.chunk_text
  else if field = "chunk_id" then some c.chunk_id
  else if field = "n_tokens" ∨ field = "article_section" ∨ field = "article" then none
  else some ""

/-- Record `SearchResult` of typedefs.py (a scored chunk). -/
structure SearchResult (K : Type) where
  query : String
  similarity : K
  chunk : ArticleChunk
deriving DecidableEq, Repr

instance {K : Type} [Zero K] : Inhabited (SearchResult K) :=
  ⟨⟨"", 0, default⟩⟩

/-- Record `SearchResultsGroupedByDoc` of typedefs.py (a document-level
result). -/
structure SearchResultsGroupedByDoc (K : Type) where
  weighted_similarity : K
  max_similarity_chunk : SearchResult K
  query : String
  mean_similarity : K
  max_similarity : K
  min_similarity : K
  article : Article
  search_results_list : List (SearchResult K)
deriving DecidableEq, Repr

instance {K : Type} [Zero K] : Inhabited (SearchResultsGroupedByDoc K) :=
  ⟨⟨0, default, "", 0, 0, 0, ⟨⟨"", "", ""⟩, "", []⟩, []⟩⟩

/-- Record `QueryScoresVectors` of typedefs.py: the query string, the
per-field query vectors, the full score vector and the selected indices. -/
structure QueryScoresVectors (K : Type) where
  query : String
  query_vecs : List (String × List K)
  scores : List K
  top_indices : List Nat
deriving DecidableEq, Repr

/-! ### The default sklearn analyzer

`TfidfVectorizer()` with default parameters: lowercase, token pattern
`\b\w\w+\b`, i.e. the tokens of a text are the maximal runs of word
characters of length at least two, after lowercasing.  (`Char.toLower`
and `Char.isAlphanum` are the ASCII fragment of the Python unicode
behaviour; no claim exercises non-ASCII text.) -/

/-- Word character of the token pattern `\w`: alphanumeric or underscore. -/
def isWordChar (c : Char) : Bool := c.isAlphanum || c == '_'

/-- sklearn default analyzer: lowercase, then keep the maximal runs of
word characters of length at least two. -/
def tokenize (s : String) : List String :=
  (((s.data.map Char.toLower).splitOnP (fun c => !isWordChar c)).filter
      (fun t => 2 ≤ t.length)).map (fun cs => String.mk cs)

/-! ### The vectorizer state derived from the fitted texts

`CountVectorizer.fit` collects the vocabulary and sorts it
alphabetically; `TfidfVectorizer` (defaults: `smooth_idf=True`,
`sublinear_tf=False`, `norm='l2'`) weights raw term counts by
`idf(t) = ln((1 + N) / (1 + df(t))) + 1` and L2-normalises each row,
leaving all-zero rows unchanged (sklearn `normalize` substitutes norm 1
for norm 0). -/

/-- Lexicographic order on code-point sequences, as Python compares
strings when sklearn sorts the vocabulary. -/
def lexLe : List Char → List Char → Bool
  | [], _ => true
  | _ :: _, [] => false
  | a :: as, b :: bs =>
    if a.toNat < b.toNat then true
    else if b.toNat < a.toNat then false
    else lexLe as bs

/-- Lexicographic order on strings by code points. -/
def strLe (a b : String) : Bool := lexLe a.data b.data

/-- Vocabulary learned from the fitted texts: all observed tokens, sorted
alphabetically (sklearn sorts the feature names; Python sorts strings by
code points). -/
def buildVocab (texts : List String) : List String :=
  List.insertionSort (fun a b => strLe a b = true) (texts.flatMap tokenize).dedup

/-- Document frequency of token `t` over the fitted texts. -/
def df (texts : List String) (t : String) : Nat :=
  texts.countP (fun x => decide (t ∈ tokenize x))

variable {K : Type} [LinearOrderedField K]

/-- Smoothed inverse document frequency,
`idf(t) = ln((1 + N) / (1 + df(t))) + 1` (sklearn `smooth_idf=True`). -/
def idf (logFn : K → K) (texts : List String) (t : String) : K :=
  logFn ((1 + (texts.length : K)) / (1 + (df texts t : K))) + 1

/-- Sum of squares of a vector. -/
def sumSq (v : List K) : K := (v.map (fun x => x * x)).sum

/-- sklearn `normalize` with `norm='l2'`: divide by the L2 norm, leaving
rows of norm zero unchanged (the zero norm is substituted by 1). -/
def l2normalize (sqrtFn : K → K) (v : List K) : List K :=
  if sqrtFn (sumSq v) = 0 then v else v.map (fun x => x / sqrtFn (sumSq v))

/-- Raw tf-idf coordinates of a text over a vocabulary: term count times
idf weight, one coordinate per vocabulary entry.  A token outside the
vocabulary is dropped (it indexes no coordinate). -/
def rawTfidf (logFn : K → K) (texts : List String) (vocab : List String)
    (text : String) : List K :=
  vocab.map (fun t => ((tokenize text).count t : K) * idf logFn texts t)

/-- Method `TfidfVectorizer.transform` (and the rows produced by
`fit_transform`) of the vectorizer fitted on `texts`: L2-normalised raw
tf-idf vector over the learned vocabulary. -/
def transformVec (sqrtFn logFn : K → K) (texts : List String) (text : String) :
    List K :=
  l2normalize sqrtFn (rawTfidf logFn texts (buildVocab texts) text)

/-- Dot product of two equally long coordinate vectors. -/
def dotL (a b : List K) : K := (List.zipWith (fun x y => x * y) a b).sum

/-- sklearn `cosine_similarity` of two vectors: both arguments are
L2-normalised (zero vectors staying zero) and then multiplied, so a zero
vector yields similarity 0 and no division by a zero norm is performed. -/
def cosineSim (sqrtFn : K → K) (a b : List K) : K :=
  dotL (l2normalize sqrtFn a) (l2normalize sqrtFn b)

/-! ### The index -/

/-- Class `Index` of index.py after a successful `fit`: the configured
text fields and the stored chunk sequence.  The fitted vectorizer state
(vocabulary, document frequencies, matrices) is a deterministic function
of these two components and is recomputed on demand by the definitions
below, exactly as sklearn derives it from the fitted texts. -/
structure Index where
  text_fields : List String
  docs : List ArticleChunk
deriving DecidableEq, Repr

/-- Texts extracted for one field by `Index.fit`:
`[doc.get(field, '') for doc in docs]`, defaulting an absent attribute to
the empty string.  Only meaningful when no chunk holds a non-string value
for the field; `Index.fit` rejects that situation. -/
def fieldTexts (docs : List ArticleChunk) (field : String) : List String :=
  docs.map (fun d => (d.pyget field).getD "")

/-- Method `Index.fit`: stores the chunk list and fits one vectorizer per
configured field over that field's extracted texts.  The run raises
(`none`) when some chunk holds a non-string value for a configured field
(the vectorizer rejects non-string documents) or when a field's learned
vocabulary is empty (sklearn raises `ValueError: empty vocabulary`). -/
def Index.fit (text_fields : List String) (docs : List ArticleChunk) :
    Option Index :=
  if text_fields.any (fun f => docs.any (fun d => (d.pyget f).isNone)) then none
  else if text_fields.any (fun f => decide (buildVocab (fieldTexts docs f) = [])) then
    none
  else some ⟨text_fields, docs⟩

/-- Score of one chunk for one query, as accumulated by the field loop of
`Index.query_to_vecs_scores`: over each configured field, cosine
similarity of the transformed query against the chunk's fitted row,
multiplied by the field's boost (`boost_dict.get(field, 1)` is modelled by
the total mapping `boost`), summed over the fields. -/
def chunkScore (sqrtFn logFn : K → K) (text_fields : List String)
    (docs : List ArticleChunk) (boost : String → K) (query : String)
    (d : ArticleChunk) : K :=
  (text_fields.map (fun f =>
    cosineSim sqrtFn (transformVec sqrtFn logFn (fieldTexts docs f) query)
        (transformVec sqrtFn logFn (fieldTexts docs f) ((d.pyget f).getD "")) *
      boost f)).sum

/-- Score vector of `Index.query_to_vecs_scores`: one score per stored
chunk, in corpus order. -/
def scoresVec (sqrtFn logFn : K → K) (text_fields : List String)
    (docs : List ArticleChunk) (boost : String → K) (query : String) : List K :=
  docs.map (chunkScore sqrtFn logFn text_fields docs boost query)

/-- Stable descending argsort of a score vector: the indices
`0, …, n-1` sorted by non-increasing score, equal scores keeping their
original relative order.  This is the model of
`np.argsort(-scores[sel])` applied to the selected indices; numpy leaves
the order of equal keys unspecified and the model fixes the stable
determinisation. -/
def argsortDesc (scores : List K) : List Nat :=
  List.insertionSort (fun i j => scores.getD j 0 ≤ scores.getD i 0)
    (List.range scores.length)

/-- Composite `np.argpartition(scores, -k)[-k:]` followed by the
descending argsort of the selected scores.  For `k = 0` the Python slice
`[-0:]` is the whole array (the negative-zero slicing pitfall), so all
indices are returned in descending score order; for `k > 0` the top `k`
indices are returned in descending score order. -/
def topIndices (scores : List K) (k : Nat) : List Nat :=
  if k = 0 then argsortDesc scores else (argsortDesc scores).take k

/-- Method `Index.query_to_vecs_scores`: transforms the query per field,
accumulates boosted cosine similarities into the score vector, clamps
`num_results` to the corpus size and selects the top indices.  On an
empty corpus `np.argpartition` raises (kth out of bounds on an empty
array), modelled as `none`. -/
def Index.query_to_vecs_scores (idx : Index) (sqrtFn logFn : K → K)
    (query : String) (boost : String → K) (num_results : Nat) :
    Option (QueryScoresVectors K) :=
  if idx.docs.length = 0 then none
  else
    let scores := scoresVec sqrtFn logFn idx.text_fields idx.docs boost query
    let k := min num_results idx.docs.length
    some ⟨query,
      idx.text_fields.map (fun f =>
        (f, transformVec sqrtFn logFn (fieldTexts idx.docs f) query)),
      scores, topIndices scores k⟩

/-- Method `Index.search`: maps the selected indices to
`SearchResult(query, scores[i], docs[i])` records, in selection order. -/
def Index.search (idx : Index) (sqrtFn logFn : K → K) (query : String)
    (boost : String → K) (num_results : Nat) : Option (List (SearchResult K)) :=
  (idx.query_to_vecs_scores sqrtFn logFn query boost num_results).map
    (fun qsv => qsv.top_indices.map
      (fun i => ⟨query, qsv.scores.getD i 0, idx.docs.getD i default⟩))

/-! ### Grouping chunk hits by owning document

`Index.group_search_results_by_doc` reads the query from
`top_search_results[0]` (an unguarded index access: the empty input run
raises `IndexError`, modelled as `none`), groups the scored chunks by
`chunk.article.info.name` — a Python dict keeps keys in first-insertion
order — computes the per-group statistics and sorts the groups by
`weighted_similarity` descending with the stable Python `list.sort`. -/

/-- Accumulator pass of first-occurrence key collection: keys already seen
are skipped, new keys are appended in encounter order. -/
def firstKeysAux (seen : List String) : List String → List String
  | [] => []
  | k :: t => if k ∈ seen then firstKeysAux seen t else k :: firstKeysAux (k :: seen) t

/-- Keys of a Python dict built by insertion: the distinct values in order
of first occurrence. -/
def firstKeys (l : List String) : List String := firstKeysAux [] l

/-- Model of `np.max` on a list (only ever applied to a non-empty group;
`np.max` raises on an empty array and the empty case never arises). -/
def npMax : List K → K
  | [] => 0
  | x :: xs => xs.foldl max x

/-- Model of `np.min` on a list (same non-empty proviso as `npMax`). -/
def npMin : List K → K
  | [] => 0
  | x :: xs => xs.foldl min x

/-- Model of `np.argmax`: the index of the first occurrence of the maximum
value (numpy documents that ties return the first occurrence). -/
def npArgmax (v : List K) : Nat := v.findIdx (fun x => decide (x = npMax v))

/-- Members of the group keyed by the document name `k`: the scored
chunks whose article name is `k`, in input order (a Python dict group
list preserves append order). -/
def groupMembers (rs : List (SearchResult K)) (k : String) : List (SearchResult K) :=
  rs.filter (fun r => decide (r.chunk.article.info.name = k))

/-- Member similarities of the group keyed by `k`. -/
def groupSims (rs : List (SearchResult K)) (k : String) : List K :=
  (groupMembers rs k).map (fun r => r.similarity)

/-- One `SearchResultsGroupedByDoc` record as built in the grouping loop
for the document name `k`: the member list is the scored chunks whose
article name is `k` in input order, the statistics are computed over the
member similarities, `weighted_similarity = 0.9 * max + 0.1 * mean`, the
best chunk is the member at `np.argmax(similarities)` and the article is
taken from the first member. -/
def buildGroup (query : String) (rs : List (SearchResult K)) (k : String) :
    SearchResultsGroupedByDoc K :=
  { weighted_similarity := (9 / 10 : K) * npMax (groupSims rs k) +
      (1 / 10 : K) * ((groupSims rs k).sum / ((groupSims rs k).length : K))
    max_similarity_chunk := (groupMembers rs k).getD (npArgmax (groupSims rs k)) default
    query := query
    mean_similarity := (groupSims rs k).sum / ((groupSims rs k).length : K)
    max_similarity := npMax (groupSims rs k)
    min_similarity := if (groupSims rs k).isEmpty then (1 : K) / 1000000
      else npMin (groupSims rs k)
    article := ((groupMembers rs k).headD default).chunk.article
    search_results_list := groupMembers rs k }

/-- Method `Index.group_search_results_by_doc`: `none` models the
`IndexError` raised by `top_search_results[0]` on an empty input;
otherwise the groups are built in first-occurrence order of the document
names and sorted by `weighted_similarity` descending (stable). -/
def Index.group_search_results_by_doc (rs : List (SearchResult K)) :
    Option (List (SearchResultsGroupedByDoc K)) :=
  match rs with
  | [] => none
  | r0 :: _ =>
    some (List.insertionSort
      (fun a b => b.weighted_similarity ≤ a.weighted_similarity)
      ((firstKeys (rs.map (fun r => r.chunk.article.info.name))).map
        (buildGroup r0.query rs)))

/-! ### Rocchio refinement -/

/-- Elementwise sum of two sparse rows of equal shape. -/
def vecAdd (a b : List K) : List K := List.zipWith (fun x y => x + y) a b

/-- Elementwise difference of two sparse rows of equal shape. -/
def vecSub (a b : List K) : List K := List.zipWith (fun x y => x - y) a b

/-- Scalar multiple of a sparse row. -/
def vecSmul (c : K) (v : List K) : List K := v.map (fun x => c * x)

/-- Zero sparse row of the query-vector shape
(`sparse.csr_matrix(original_query_vecs[field].shape)`). -/
def zeroVec (n : Nat) : List K := List.replicate n (0 : K)

/-- Feedback accumulation loop of `Index.refine_search` for one text
field: for each prior document result, if its article name is listed as
positive the transformed text of its best chunk is added to the positive
accumulator, otherwise (`elif`) if it is listed as negative the vector is
added to the negative accumulator, otherwise neither accumulator
changes. -/
def feedbackLoop (sqrtFn logFn : K → K) (texts : List String)
    (positive negative : List String) :
    List (SearchResultsGroupedByDoc K) → List K → List K → List K × List K
  | [], p, n => (p, n)
  | r :: rest, p, n =>
    if r.article.info.name ∈ positive then
      feedbackLoop sqrtFn logFn texts positive negative rest
        (vecAdd p (transformVec sqrtFn logFn texts
          ((r.max_similarity_chunk.chunk.chunk_text).getD ""))) n
    else if r.article.info.name ∈ negative then
      feedbackLoop sqrtFn logFn texts positive negative rest p
        (vecAdd n (transformVec sqrtFn logFn texts
          ((r.max_similarity_chunk.chunk.chunk_text).getD "")))
    else feedbackLoop sqrtFn logFn texts positive negative rest p n

/-- Refined query vector of one text field,
`alpha * original + beta * positive - gamma * negative`, with the
accumulators starting from the zero row of the query-vector shape. -/
def refinedQueryVec (sqrtFn logFn : K → K) (texts : List String)
    (positive negative : List String) (alpha beta gamma : K) (query : String)
    (rs : List (SearchResultsGroupedByDoc K)) : List K :=
  let pn := feedbackLoop sqrtFn logFn texts positive negative rs
    (zeroVec (buildVocab texts).length) (zeroVec (buildVocab texts).length)
  vecSub (vecAdd (vecSmul alpha (transformVec sqrtFn logFn texts query))
      (vecSmul beta pn.1))
    (vecSmul gamma pn.2)

/-- Score vector recomputed by `Index.refine_search`: per field the
cosine similarity of the refined query vector against every fitted row,
accumulated without boosts, one entry per stored chunk in corpus
order. -/
def refineScores (idx : Index) (sqrtFn logFn : K → K)
    (rs : List (SearchResultsGroupedByDoc K)) (positive negative : List String)
    (alpha beta gamma : K) (query : String) : List K :=
  idx.docs.map (fun d =>
    (idx.text_fields.map (fun f =>
      cosineSim sqrtFn
        (refinedQueryVec sqrtFn logFn (fieldTexts idx.docs f) positive negative
          alpha beta gamma query rs)
        (transformVec sqrtFn logFn (fieldTexts idx.docs f)
          ((d.pyget f).getD "")))).sum)

/-- Chunk-level ranking recomputed by `Index.refine_search`:
`num_results = min(len(docs), len(scores))` selects every index, and the
ranked `SearchResult` list is produced in descending score order. -/
def refineRanked (idx : Index) (sqrtFn logFn : K → K)
    (rs : List (SearchResultsGroupedByDoc K)) (positive negative : List String)
    (alpha beta gamma : K) (query : String) : List (SearchResult K) :=
  (topIndices (refineScores idx sqrtFn logFn rs positive negative alpha beta gamma query)
      (min idx.docs.length
        (refineScores idx sqrtFn logFn rs positive negative alpha beta gamma query).length)).map
    (fun i =>
      ⟨query,
        (refineScores idx sqrtFn logFn rs positive negative alpha beta gamma query).getD i 0,
        idx.docs.getD i default⟩)

/-- Method `Index.refine_search`: the query string is recovered from
`search_results[0]` (unguarded index access, `none` on an empty prior
list); the feedback loop transforms the best-chunk text of every prior
document listed as positive, or failing that as negative, so a non-string
chunk text among those raises inside the vectorizer (`none`); rescoring
an empty corpus raises inside `np.argpartition` (`none`); otherwise the
reranked chunk list is regrouped by document. -/
def Index.refine_search (idx : Index) (sqrtFn logFn : K → K)
    (search_results : List (SearchResultsGroupedByDoc K))
    (positive negative : List String) (alpha beta gamma : K) :
    Option (List (SearchResultsGroupedByDoc K)) :=
  match search_results with
  | [] => none
  | r0 :: _ =>
    if idx.text_fields ≠ [] ∧ search_results.any (fun r =>
        (decide (r.article.info.name ∈ positive) ||
          decide (r.article.info.name ∈ negative)) &&
        r.max_similarity_chunk.chunk.chunk_text.isNone) then none
    else if idx.docs.length = 0 then none
    else Index.group_search_results_by_doc
      (refineRanked idx sqrtFn logFn search_results positive negative
        alpha beta gamma r0.query)

/-! ### Concrete instantiation used by the witnesses

Rational stand-ins for the two irrational primitives: a constant 1 for the
square root (so normalisation divides by 1) and a constant 0 for the
logarithm (so every idf weight is `0 + 1 = 1`).  The verified theorems
hold for every choice of these functions, so any computable choice serves
as a witness instantiation. -/

/-- Witness stand-in for `math.sqrt`. -/
def sq1 : ℚ → ℚ := fun _ => 1

/-- Witness stand-in for `math.log`. -/
def lg0 : ℚ → ℚ := fun _ => 0

/-- Witness article of document `D1`. -/
def art1 : Article := ⟨⟨"u1", "t1", "D1"⟩, "s1", []⟩

/-- Witness article of document `D2`. -/
def art2 : Article := ⟨⟨"u2", "t2", "D2"⟩, "s2", []⟩

/-- Witness section record. -/
def secX : ArticleSection := ⟨"i", "t", "x", "u"⟩

/-- Witness chunk of `D1` with text `"aa aa bb"`. -/
def cA : ArticleChunk := ⟨"c1", some "aa aa bb", 3, secX, art1⟩

/-- Witness chunk of `D1` with text `"bb cc"`. -/
def cB : ArticleChunk := ⟨"c2", some "bb cc", 2, secX, art1⟩

/-- Witness chunk of `D2` with text `"dd dd"`. -/
def cC : ArticleChunk := ⟨"c3", some "dd dd", 2, secX, art2⟩

/-- Witness chunk whose text is Python `None`. -/
def cNull : ArticleChunk := ⟨"c4", none, 0, secX, art2⟩

/-- Witness chunk whose text is the empty string (the value an absent
attribute is normalised to). -/
def cEmpty : ArticleChunk := ⟨"c5", some "", 1, secX, art2⟩

/-- Witness index over the three-chunk corpus, as produced by
`Index.fit ["chunk_text"] [cA, cB, cC]`. -/
def idx3 : Index := ⟨["chunk_text"], [cA, cB, cC]⟩

/-- Witness scored-chunk list handed to the grouping routine. -/
def rsDemo : List (SearchResult ℚ) :=
  [⟨"q", 1 / 2, cA⟩, ⟨"q", 3 / 4, cC⟩, ⟨"q", 1 / 4, cB⟩]

/-- Witness document-level result for `D2` (a prior result handed to the
refinement routine). -/
def gD2 : SearchResultsGroupedByDoc ℚ :=
  ⟨3 / 4, ⟨"q", 3 / 4, cC⟩, "q", 3 / 4, 3 / 4, 3 / 4, art2, [⟨"q", 3 / 4, cC⟩]⟩

/-- Grouped output of `Index.group_search_results_by_doc rsDemo`: `D2`
(weighted 3/4) ahead of `D1` (weighted 39/80). -/
def outDemo : List (SearchResultsGroupedByDoc ℚ) :=
  [⟨3 / 4, ⟨"q", 3 / 4, cC⟩, "q", 3 / 4, 3 / 4, 3 / 4, art2, [⟨"q", 3 / 4, cC⟩]⟩,
   ⟨39 / 80, ⟨"q", 1 / 2, cA⟩, "q", 3 / 8, 1 / 2, 1 / 4, art1,
     [⟨"q", 1 / 2, cA⟩, ⟨"q", 1 / 4, cB⟩]⟩]

/-- Output of `idx3.refine_search sq1 lg0 [gD2] ["D2"] [] 0 1 0`: the
positively reinforced `D2` ranks first. -/
def outR : List (SearchResultsGroupedByDoc ℚ) :=
  [⟨4, ⟨"q", 4, cC⟩, "q", 4, 4, 4, art2, [⟨"q", 4, cC⟩]⟩,
   ⟨0, ⟨"q", 0, cA⟩, "q", 0, 0, 0, art1, [⟨"q", 0, cA⟩, ⟨"q", 0, cB⟩]⟩]

attribute [local semireducible] Rat.mul Rat.add Rat.sub Rat.inv

/-! ### Helper lemmas -/

section Helpers

variable {K : Type} [LinearOrderedField K]

lemma mem_zipWith_mul_zero_left {a : List K} (ha : ∀ x ∈ a, x = 0) :
    ∀ (b : List K) (y : K), y ∈ List.zipWith (fun x y => x * y) a b → y = 0 := by
  induction a with
  | nil => intro b y hy; simp at hy
  | cons x xs ih =>
    intro b y hy
    cases b with
    | nil => simp at hy
    | cons z zs =>
      simp only [List.zipWith_cons_cons, List.mem_cons] at hy
      rcases hy with hy | hy
      · rw [hy, ha x (by simp), zero_mul]
      · exact ih (fun u hu => ha u (by simp [hu])) zs y hy

lemma mem_zipWith_mul_zero_right {b : List K} (hb : ∀ x ∈ b, x = 0) :
    ∀ (a : List K) (y : K), y ∈ List.zipWith (fun x y => x * y) a b → y = 0 := by
  induction b with
  | nil => intro a y hy; simp at hy
  | cons x xs ih =>
    intro a y hy
    cases a with
    | nil => simp at hy
    | cons z zs =>
      simp only [List.zipWith_cons_cons, List.mem_cons] at hy
      rcases hy with hy | hy
      · rw [hy, hb x (by simp), mul_zero]
      · exact ih (fun u hu => hb u (by simp [hu])) zs y hy

lemma dotL_zero_left {a : List K} (ha : ∀ x ∈ a, x = 0) (b : List K) :
    dotL a b = 0 :=
  List.sum_eq_zero (fun y hy => mem_zipWith_mul_zero_left ha b y hy)

lemma dotL_zero_right {b : List K} (hb : ∀ x ∈ b, x = 0) (a : List K) :
    dotL a b = 0 :=
  List.sum_eq_zero (fun y hy => mem_zipWith_mul_zero_right hb a y hy)

lemma l2normalize_of_all_zero (sqrtFn : K → K) {v : List K}
    (hv : ∀ x ∈ v, x = 0) : l2normalize sqrtFn v = v := by
  unfold l2normalize
  by_cases h : sqrtFn (sumSq v) = 0
  · rw [if_pos h]
  · rw [if_neg h]
    have hcong : ∀ x ∈ v, x / sqrtFn (sumSq v) = id x := by
      intro x hx
      rw [hv x hx]
      simp
    rw [List.map_congr_left hcong, List.map_id]

lemma cosineSim_zero_left (sqrtFn : K → K) {a : List K}
    (ha : ∀ x ∈ a, x = 0) (b : List K) : cosineSim sqrtFn a b = 0 := by
  unfold cosineSim
  rw [l2normalize_of_all_zero sqrtFn ha]
  exact dotL_zero_left ha _

lemma cosineSim_zero_right (sqrtFn : K → K) {b : List K}
    (hb : ∀ x ∈ b, x = 0) (a : List K) : cosineSim sqrtFn a b = 0 := by
  unfold cosineSim
  rw [l2normalize_of_all_zero sqrtFn hb]
  exact dotL_zero_right hb _

lemma getD_of_all_zero {v : List K} (hv : ∀ x ∈ v, x = 0) (i : Nat) :
    v.getD i 0 = 0 := by
  rcases Nat.lt_or_ge i v.length with h | h
  · rw [List.getD_eq_getElem _ _ h]
    exact hv _ (List.getElem_mem h)
  · rw [List.getD_eq_default _ _ h]

lemma insertionSort_eq_self {α : Type} (r : α → α → Prop) [DecidableRel r] :
    ∀ (l : List α), (∀ a ∈ l, ∀ b ∈ l, r a b) → List.insertionSort r l = l := by
  intro l
  induction l with
  | nil => intro _; rfl
  | cons a t ih =>
    intro h
    have ht : List.insertionSort r t = t :=
      ih (fun x hx y hy => h x (List.mem_cons_of_mem _ hx) y (List.mem_cons_of_mem _ hy))
    show List.orderedInsert r a (List.insertionSort r t) = a :: t
    rw [ht]
    cases t with
    | nil => rfl
    | cons b t2 =>
      have hab : r a b := h a (by simp) b (by simp)
      simp [List.orderedInsert, if_pos hab]

lemma argsortDesc_of_all_zero {scores : List K} (h : ∀ x ∈ scores, x = 0) :
    argsortDesc scores = List.range scores.length := by
  unfold argsortDesc
  apply insertionSort_eq_self
  intro i _ j _
  rw [getD_of_all_zero h i, getD_of_all_zero h j]

lemma range_map_getD {α : Type} (l : List α) (d : α) :
    (List.range l.length).map (fun i => l.getD i d) = l := by
  apply List.ext_getElem
  · simp
  · intro n h1 h2
    simp only [List.getElem_map, List.getElem_range]
    exact List.getD_eq_getElem _ _ h2

lemma tokenize_empty : tokenize "" = [] := rfl

lemma rawTfidf_of_oov (logFn : K → K) (texts vocab : List String) {text : String}
    (h : ∀ t ∈ tokenize text, t ∉ vocab) :
    ∀ x ∈ rawTfidf logFn texts vocab text, x = 0 := by
  intro x hx
  unfold rawTfidf at hx
  rcases List.mem_map.1 hx with ⟨t, ht, rfl⟩
  have hcount : (tokenize text).count t = 0 :=
    List.count_eq_zero.2 (fun hmem => h t hmem ht)
  rw [hcount]
  simp

lemma transformVec_of_oov (sqrtFn logFn : K → K) (texts : List String)
    {text : String} (h : ∀ t ∈ tokenize text, t ∉ buildVocab texts) :
    ∀ x ∈ transformVec sqrtFn logFn texts text, x = 0 := by
  unfold transformVec
  rw [l2normalize_of_all_zero sqrtFn (rawTfidf_of_oov logFn texts _ h)]
  exact rawTfidf_of_oov logFn texts _ h

lemma transformVec_empty_zero (sqrtFn logFn : K → K) (texts : List String) :
    ∀ x ∈ transformVec sqrtFn logFn texts "", x = 0 :=
  transformVec_of_oov sqrtFn logFn texts
    (fun t ht => absurd ht (by rw [tokenize_empty]; simp))

lemma chunkScore_of_oov (sqrtFn logFn : K → K) (tfs : List String)
    (ds : List ArticleChunk) (boost : String → K) {query : String}
    (d : ArticleChunk)
    (h : ∀ f ∈ tfs, ∀ t ∈ tokenize query, t ∉ buildVocab (fieldTexts ds f)) :
    chunkScore sqrtFn logFn tfs ds boost query d = 0 := by
  unfold chunkScore
  apply List.sum_eq_zero
  intro x hx
  rcases List.mem_map.1 hx with ⟨f, hf, rfl⟩
  rw [cosineSim_zero_left sqrtFn (transformVec_of_oov sqrtFn logFn _ (h f hf)) _,
    zero_mul]

lemma chunkScore_of_empty_field (sqrtFn logFn : K → K) (tfs : List String)
    (ds : List ArticleChunk) (boost : String → K) (query : String)
    {d : ArticleChunk} (hd : ∀ f ∈ tfs, (d.pyget f).getD "" = "") :
    chunkScore sqrtFn logFn tfs ds boost query d = 0 := by
  unfold chunkScore
  apply List.sum_eq_zero
  intro x hx
  rcases List.mem_map.1 hx with ⟨f, hf, rfl⟩
  rw [hd f hf,
    cosineSim_zero_right sqrtFn (transformVec_empty_zero sqrtFn logFn _) _,
    zero_mul]

lemma range_map_comp {α β : Type} (l : List α) (g : α → β) (d : α) :
    (List.range l.length).map (fun i => g (l.getD i d)) = l.map g := by
  apply List.ext_getElem
  · simp
  · intro n h1 h2
    simp only [List.getElem_map, List.getElem_range]
    rw [List.getD_eq_getElem]

lemma headD_mem {α : Type} {l : List α} (h : l ≠ []) (d : α) : l.headD d ∈ l := by
  cases l with
  | nil => exact absurd rfl h
  | cons x xs => simp

lemma mem_of_mem_firstKeysAux :
    ∀ (l seen : List String) (k : String), k ∈ firstKeysAux seen l → k ∈ l := by
  intro l
  induction l with
  | nil => intro seen k hk; simp [firstKeysAux] at hk
  | cons a t ih =>
    intro seen k hk
    unfold firstKeysAux at hk
    by_cases ha : a ∈ seen
    · rw [if_pos ha] at hk
      exact List.mem_cons_of_mem _ (ih seen k hk)
    · rw [if_neg ha] at hk
      rcases List.mem_cons.1 hk with rfl | hk2
      · simp
      · exact List.mem_cons_of_mem _ (ih _ k hk2)

lemma mem_of_mem_firstKeys {l : List String} {k : String}
    (h : k ∈ firstKeys l) : k ∈ l :=
  mem_of_mem_firstKeysAux l [] k h

omit [LinearOrderedField K] in
lemma groupMembers_ne_nil {rs : List (SearchResult K)} {k : String}
    (hk : k ∈ firstKeys (rs.map (fun r => r.chunk.article.info.name))) :
    groupMembers rs k ≠ [] := by
  rcases List.mem_map.1 (mem_of_mem_firstKeys hk) with ⟨r, hr, rfl⟩
  intro hnil
  have hmem : r ∈ groupMembers rs r.chunk.article.info.name :=
    List.mem_filter.2 ⟨hr, by simp⟩
  rw [hnil] at hmem
  simp at hmem

omit [LinearOrderedField K] in
lemma name_of_mem_groupMembers {rs : List (SearchResult K)} {k : String}
    {r : SearchResult K} (hr : r ∈ groupMembers rs k) :
    r.chunk.article.info.name = k := by
  have := (List.mem_filter.1 hr).2
  exact of_decide_eq_true this

lemma foldl_max_mem : ∀ (xs : List K) (a : K), xs.foldl max a ∈ a :: xs := by
  intro xs
  induction xs with
  | nil => intro a; simp
  | cons b t ih =>
    intro a
    show t.foldl max (max a b) ∈ a :: b :: t
    rcases List.mem_cons.1 (ih (max a b)) with h | h
    · rcases max_choice a b with h2 | h2
      · rw [h, h2]; simp
      · rw [h, h2]; simp
    · simp [h]

lemma le_foldl_max : ∀ (xs : List K) (a x : K), x ∈ a :: xs → x ≤ xs.foldl max a := by
  intro xs
  induction xs with
  | nil =>
    intro a x hx
    simp only [List.mem_singleton] at hx
    simp [hx]
  | cons b t ih =>
    intro a x hx
    show x ≤ t.foldl max (max a b)
    rcases List.mem_cons.1 hx with rfl | hx2
    · exact le_trans (le_max_left x b) (ih (max x b) _ (by simp))
    · rcases List.mem_cons.1 hx2 with rfl | hx3
      · exact le_trans (le_max_right a x) (ih (max a x) _ (by simp))
      · exact ih (max a b) x (by simp [hx3])

lemma npMax_mem {v : List K} (hv : v ≠ []) : npMax v ∈ v := by
  cases v with
  | nil => exact absurd rfl hv
  | cons x xs => exact foldl_max_mem xs x

lemma le_npMax {v : List K} (x : K) (hx : x ∈ v) : x ≤ npMax v := by
  cases v with
  | nil => simp at hx
  | cons y ys => exact le_foldl_max ys y x hx

lemma findIdx_spec {α : Type} (p : α → Bool) (d : α) :
    ∀ (l : List α), (∃ x ∈ l, p x = true) →
      l.findIdx p < l.length ∧ p (l.getD (l.findIdx p) d) = true ∧
        ∀ j < l.findIdx p, p (l.getD j d) = false := by
  intro l
  induction l with
  | nil => intro h; simp at h
  | cons a t ih =>
    intro hex
    by_cases hpa : p a = true
    · have hfi : (a :: t).findIdx p = 0 := by rw [List.findIdx_cons, hpa]; rfl
      refine ⟨by rw [hfi]; simp, by rw [hfi]; simpa using hpa, ?_⟩
      intro j hj
      rw [hfi] at hj
      exact absurd hj (Nat.not_lt_zero j)
    · have hpaf : p a = false := by
        cases hb : p a
        · rfl
        · exact absurd hb hpa
      have hex2 : ∃ x ∈ t, p x = true := by
        rcases hex with ⟨x, hx, hpx⟩
        rcases List.mem_cons.1 hx with rfl | hx2
        · exact absurd hpx hpa
        · exact ⟨x, hx2, hpx⟩
      rcases ih hex2 with ⟨h1, h2, h3⟩
      have hfi : (a :: t).findIdx p = t.findIdx p + 1 := by
        rw [List.findIdx_cons, hpaf]
        rfl
      refine ⟨?_, ?_, ?_⟩
      · rw [hfi]
        exact Nat.succ_lt_succ h1
      · rw [hfi, List.getD_cons_succ]
        exact h2
      · intro j hj
        rw [hfi] at hj
        cases j with
        | zero => rw [List.getD_cons_zero]; exact hpaf
        | succ j2 =>
          rw [List.getD_cons_succ]
          exact h3 j2 (Nat.lt_of_succ_lt_succ hj)

lemma map_getD {α β : Type} (f : α → β) (l : List α) (i : Nat)
    (h : i < l.length) (d : α) (d2 : β) :
    (l.map f).getD i d2 = f (l.getD i d) := by
  rw [List.getD_eq_getElem _ _ (by simpa using h), List.getD_eq_getElem _ _ h,
    List.getElem_map]

lemma map_const_replicate {α β : Type} (l : List α) (c : β) :
    l.map (fun _ => c) = List.replicate l.length c := by
  induction l with
  | nil => rfl
  | cons x xs ih => simp [ih, List.replicate_succ]

lemma char_eq_of_toNat_eq {a b : Char} (h : a.toNat = b.toNat) : a = b :=
  Char.ext (UInt32.ext h)

lemma lexLe_total : ∀ (a b : List Char), lexLe a b = true ∨ lexLe b a = true := by
  intro a
  induction a with
  | nil => intro b; left; rfl
  | cons x xs ih =>
    intro b
    cases b with
    | nil => right; rfl
    | cons y ys =>
      by_cases h1 : x.toNat < y.toNat
      · left
        simp only [lexLe]
        rw [if_pos h1]
      · by_cases h2 : y.toNat < x.toNat
        · right
          simp only [lexLe]
          rw [if_pos h2]
        · have hx : lexLe (x :: xs) (y :: ys) = lexLe xs ys := by
            simp only [lexLe]
            rw [if_neg h1, if_neg h2]
          have hy : lexLe (y :: ys) (x :: xs) = lexLe ys xs := by
            simp only [lexLe]
            rw [if_neg h2, if_neg h1]
          rw [hx, hy]
          exact ih ys

lemma lexLe_trans : ∀ (a b c : List Char),
    lexLe a b = true → lexLe b c = true → lexLe a c = true := by
  intro a
  induction a with
  | nil => intro b c _ _; rfl
  | cons x xs ih =>
    intro b c h1 h2
    cases b with
    | nil => simp [lexLe] at h1
    | cons y ys =>
      cases c with
      | nil => simp [lexLe] at h2
      | cons z zs =>
        simp only [lexLe] at h1 h2 ⊢
        by_cases hxy : x.toNat < y.toNat
        · by_cases hyz : y.toNat < z.toNat
          · rw [if_pos (show x.toNat < z.toNat by omega)]
          · by_cases hzy : z.toNat < y.toNat
            · rw [if_neg hyz, if_pos hzy] at h2
              exact absurd h2 (by simp)
            · rw [if_pos (show x.toNat < z.toNat by omega)]
        · by_cases hyx : y.toNat < x.toNat
          · rw [if_neg hxy, if_pos hyx] at h1
            exact absurd h1 (by simp)
          · rw [if_neg hxy, if_neg hyx] at h1
            by_cases hyz : y.toNat < z.toNat
            · rw [if_pos (show x.toNat < z.toNat by omega)]
            · by_cases hzy : z.toNat < y.toNat
              · rw [if_neg hyz, if_pos hzy] at h2
                exact absurd h2 (by simp)
              · rw [if_neg hyz, if_neg hzy] at h2
                rw [if_neg (show ¬x.toNat < z.toNat by omega),
                  if_neg (show ¬z.toNat < x.toNat by omega)]
                exact ih ys zs h1 h2

lemma lexLe_antisymm : ∀ (a b : List Char),
    lexLe a b = true → lexLe b a = true → a = b := by
  intro a
  induction a with
  | nil =>
    intro b h1 h2
    cases b with
    | nil => rfl
    | cons y ys => simp [lexLe] at h2
  | cons x xs ih =>
    intro b h1 h2
    cases b with
    | nil => simp [lexLe] at h1
    | cons y ys =>
      simp only [lexLe] at h1 h2
      by_cases hxy : x.toNat < y.toNat
      · rw [if_neg (show ¬y.toNat < x.toNat by omega), if_pos hxy] at h2
        exact absurd h2 (by simp)
      · by_cases hyx : y.toNat < x.toNat
        · rw [if_neg hxy, if_pos hyx] at h1
          exact absurd h1 (by simp)
        · rw [if_neg hxy, if_neg hyx] at h1
          rw [if_neg hyx, if_neg hxy] at h2
          rw [char_eq_of_toNat_eq (show x.toNat = y.toNat by omega), ih ys h1 h2]

lemma strLe_total (a b : String) : strLe a b = true ∨ strLe b a = true :=
  lexLe_total a.data b.data

lemma strLe_trans {a b c : String} (h1 : strLe a b = true)
    (h2 : strLe b c = true) : strLe a c = true :=
  lexLe_trans a.data b.data c.data h1 h2

lemma strLe_antisymm {a b : String} (h1 : strLe a b = true)
    (h2 : strLe b a = true) : a = b :=
  String.ext (lexLe_antisymm a.data b.data h1 h2)

lemma buildVocab_perm {t1 t2 : List String} (h : t1.Perm t2) :
    buildVocab t1 = buildVocab t2 := by
  unfold buildVocab
  haveI : IsTotal String (fun a b => strLe a b = true) := ⟨strLe_total⟩
  haveI : IsTrans String (fun a b => strLe a b = true) :=
    ⟨fun _ _ _ => strLe_trans⟩
  haveI : IsAntisymm String (fun a b => strLe a b = true) :=
    ⟨fun _ _ => strLe_antisymm⟩
  exact List.eq_of_perm_of_sorted
    ((List.perm_insertionSort _ _).trans
      (((h.flatMap_right tokenize).dedup).trans
        (List.perm_insertionSort _ _).symm))
    (List.sorted_insertionSort _ _) (List.sorted_insertionSort _ _)

lemma df_perm {t1 t2 : List String} (h : t1.Perm t2) (t : String) :
    df t1 t = df t2 t :=
  h.countP_eq _

lemma idf_perm (logFn : K → K) {t1 t2 : List String} (h : t1.Perm t2)
    (t : String) : idf logFn t1 t = idf logFn t2 t := by
  unfold idf
  rw [df_perm h, h.length_eq]

lemma transformVec_perm (sqrtFn logFn : K → K) {t1 t2 : List String}
    (h : t1.Perm t2) (text : String) :
    transformVec sqrtFn logFn t1 text = transformVec sqrtFn logFn t2 text := by
  unfold transformVec rawTfidf
  rw [buildVocab_perm h,
    List.map_congr_left (fun t _ => by rw [idf_perm logFn h t])]

lemma fieldTexts_perm {ds1 ds2 : List ArticleChunk} (h : ds1.Perm ds2)
    (f : String) : (fieldTexts ds1 f).Perm (fieldTexts ds2 f) :=
  h.map _

lemma chunkScore_perm (sqrtFn logFn : K → K) (tfs : List String)
    {ds1 ds2 : List ArticleChunk} (h : ds1.Perm ds2) (boost : String → K)
    (query : String) (d : ArticleChunk) :
    chunkScore sqrtFn logFn tfs ds1 boost query d =
      chunkScore sqrtFn logFn tfs ds2 boost query d := by
  unfold chunkScore
  rw [List.map_congr_left (fun f _ => by
    rw [transformVec_perm sqrtFn logFn (fieldTexts_perm h f) query,
      transformVec_perm sqrtFn logFn (fieldTexts_perm h f) ((d.pyget f).getD "")])]

lemma group_cons_eq (r0 : SearchResult K) (rest : List (SearchResult K)) :
    Index.group_search_results_by_doc (r0 :: rest) =
      some (List.insertionSort
        (fun a b => b.weighted_similarity ≤ a.weighted_similarity)
        ((firstKeys ((r0 :: rest).map (fun r => r.chunk.article.info.name))).map
          (buildGroup r0.query (r0 :: rest)))) := rfl

lemma mem_group {rs : List (SearchResult K)}
    {out : List (SearchResultsGroupedByDoc K)}
    (h : Index.group_search_results_by_doc rs = some out) :
    ∀ g ∈ out, ∃ r0 rest k, rs = r0 :: rest ∧
      k ∈ firstKeys (rs.map (fun r => r.chunk.article.info.name)) ∧
      g = buildGroup r0.query rs k := by
  cases rs with
  | nil => simp [Index.group_search_results_by_doc] at h
  | cons r0 rest =>
    intro g hg
    rw [group_cons_eq] at h
    have h2 := Option.some.inj h
    rw [← h2] at hg
    have hg2 := (List.perm_insertionSort
      (fun a b : SearchResultsGroupedByDoc K =>
        b.weighted_similarity ≤ a.weighted_similarity) _).mem_iff.1 hg
    rcases List.mem_map.1 hg2 with ⟨k, hk, rfl⟩
    exact ⟨r0, rest, k, rfl, hk, rfl⟩

lemma group_sorted {rs : List (SearchResult K)}
    {out : List (SearchResultsGroupedByDoc K)}
    (h : Index.group_search_results_by_doc rs = some out) :
    out.Pairwise
      (fun a b => b.weighted_similarity ≤ a.weighted_similarity) := by
  cases rs with
  | nil => simp [Index.group_search_results_by_doc] at h
  | cons r0 rest =>
    rw [group_cons_eq] at h
    have h2 := Option.some.inj h
    haveI : IsTotal (SearchResultsGroupedByDoc K)
        (fun a b => b.weighted_similarity ≤ a.weighted_similarity) :=
      ⟨fun a b => le_total b.weighted_similarity a.weighted_similarity⟩
    haveI : IsTrans (SearchResultsGroupedByDoc K)
        (fun a b => b.weighted_similarity ≤ a.weighted_similarity) :=
      ⟨fun _ _ _ hab hbc => le_trans hbc hab⟩
    rw [← h2]
    exact List.sorted_insertionSort _ _

lemma group_queries {r0 : SearchResult K} {rest : List (SearchResult K)}
    {out : List (SearchResultsGroupedByDoc K)}
    (h : Index.group_search_results_by_doc (r0 :: rest) = some out) :
    ∀ g ∈ out, g.query = r0.query := by
  intro g hg
  rcases mem_group h g hg with ⟨r1, rest1, k, heq, _, rfl⟩
  have : r1 = r0 := by
    injection heq with h1 _
    exact h1.symm
  rw [this]
  rfl

omit [LinearOrderedField K] in
lemma pyget_absent {f : String} (d : ArticleChunk)
    (h1 : f ≠ "chunk_text") (h2 : f ≠ "chunk_id") (h3 : f ≠ "n_tokens")
    (h4 : f ≠ "article_section") (h5 : f ≠ "article") :
    d.pyget f = some "" := by
  unfold ArticleChunk.pyget
  rw [if_neg h1, if_neg h2,
    if_neg (fun hor => Or.elim hor h3 (fun hor2 => Or.elim hor2 h4 h5))]

omit [LinearOrderedField K] in
lemma tokenize_all_empty {texts : List String} (h : ∀ t ∈ texts, t = "") :
    texts.flatMap tokenize = [] := by
  induction texts with
  | nil => rfl
  | cons a t ih =>
    rw [List.flatMap_cons, h a (by simp), tokenize_empty, List.nil_append]
    exact ih (fun x hx => h x (by simp [hx]))

omit [LinearOrderedField K] in
lemma buildVocab_of_all_empty {texts : List String} (h : ∀ t ∈ texts, t = "") :
    buildVocab texts = [] := by
  unfold buildVocab
  rw [tokenize_all_empty h]
  rfl

lemma refine_search_cons_eq (idx : Index) (sqrtFn logFn : K → K)
    (r0 : SearchResultsGroupedByDoc K) (rest : List (SearchResultsGroupedByDoc K))
    (positive negative : List String) (alpha beta gamma : K) :
    idx.refine_search sqrtFn logFn (r0 :: rest) positive negative alpha beta
        gamma =
      if idx.text_fields ≠ [] ∧ (r0 :: rest).any (fun r =>
          (decide (r.article.info.name ∈ positive) ||
            decide (r.article.info.name ∈ negative)) &&
          r.max_similarity_chunk.chunk.chunk_text.isNone) then none
      else if idx.docs.length = 0 then none
      else Index.group_search_results_by_doc
        (refineRanked idx sqrtFn logFn (r0 :: rest) positive negative alpha
          beta gamma r0.query) := rfl

end Helpers

/-! ### Claims -/

section Claims

variable {K : Type} [LinearOrderedField K]

/-- C1: evaluation of the code at the failing input.  The claim states
that `search(q, boosts, limit)` returns exactly `min(limit, len(C))`
scored chunks for every non-negative limit, but at `limit = 0` on the
fitted three-chunk corpus the code returns all three results: with
`num_results = min(0, 3) = 0` the Python slice
`np.argpartition(scores, -0)[-0:]` selects the whole array, so the
docstring promise of returning `num_results` top results is broken. -/
theorem c1_search_limit_zero_returns_all :
    Index.fit ["chunk_text"] [cA, cB, cC] = some idx3 ∧
    (idx3.search sq1 lg0 "bb dd" (fun _ => (1 : ℚ)) 0).map List.length = some 3 ∧
    min 0 idx3.docs.length = 0 := by
  refine ⟨by decide, by decide, by decide⟩

/-- C3 counterexample: both halves of the claim that a chunk with a
missing or null text field is "indexed without error … rather than
causing fit to fail" are false on the code.  A corpus containing a chunk
whose text field holds null makes `fit` raise inside the vectorizer
(`doc.get('chunk_text', '')` returns the null itself because the
attribute exists), and a configured field that is absent from the chunk
record (here `title`) is absent from every chunk, so that field's texts
are all empty, its learned vocabulary is empty and `fit` raises the
empty-vocabulary error. -/
theorem c3_fit_fails_cex :
    Index.fit ["chunk_text"] [cA, cNull] = none ∧
    Index.fit ["title"] [cA, cB, cC] = none :=
  ⟨by decide, by decide⟩

/-- C3 amended: `doc.get(field, '')` does normalise an absent attribute
to the empty string, and a member chunk of a successfully fitted corpus
whose configured fields all read back as the empty string is indexed and
contributes zero score to every query; but such a chunk is not indexed
without error in the claim's two scenarios: a null text field is
returned as-is and rejected by the vectorizer, and a configured field
absent from the chunk record is absent from every chunk, leaving that
field's vocabulary empty — `fit` fails in both cases. -/
theorem c3_missing_field_normalization_and_fit_failure :
    (∀ (d : ArticleChunk) (f : String),
      f ∉ ["chunk_text", "chunk_id", "n_tokens", "article_section", "article"] →
        d.pyget f = some "") ∧
    (∀ (sqrtFn logFn : K → K) (tfs : List String) (ds : List ArticleChunk)
      (idx : Index) (boost : String → K) (query : String) (d : ArticleChunk),
      Index.fit tfs ds = some idx → d ∈ ds →
      (∀ f ∈ tfs, (d.pyget f).getD "" = "") →
        chunkScore sqrtFn logFn tfs ds boost query d = 0) ∧
    (∀ (tfs : List String) (ds : List ArticleChunk) (d : ArticleChunk),
      d ∈ ds → "chunk_text" ∈ tfs → d.chunk_text = none →
        Index.fit tfs ds = none) ∧
    (∀ (tfs : List String) (ds : List ArticleChunk) (f : String),
      f ∈ tfs →
      f ∉ ["chunk_text", "chunk_id", "n_tokens", "article_section", "article"] →
        Index.fit tfs ds = none) := by
  refine ⟨?_, ?_, ?_, ?_⟩
  · intro d f hf
    simp only [List.mem_cons, List.not_mem_nil, or_false, not_or] at hf
    obtain ⟨h1, h2, h3, h4, h5⟩ := hf
    exact pyget_absent d h1 h2 h3 h4 h5
  · intro sqrtFn logFn tfs ds idx boost query d _hfit _hmem hd
    exact chunkScore_of_empty_field sqrtFn logFn tfs ds boost query hd
  · intro tfs ds d hd htf hnull
    have hc : tfs.any (fun f => ds.any (fun d => (d.pyget f).isNone)) = true := by
      rw [List.any_eq_true]
      refine ⟨"chunk_text", htf, ?_⟩
      rw [List.any_eq_true]
      exact ⟨d, hd, by simp [ArticleChunk.pyget, hnull]⟩
    unfold Index.fit
    rw [if_pos hc]
  · intro tfs ds f hf habs
    simp only [List.mem_cons, List.not_mem_nil, or_false, not_or] at habs
    obtain ⟨h1, h2, h3, h4, h5⟩ := habs
    unfold Index.fit
    by_cases hg1 : tfs.any (fun f2 => ds.any (fun d => (d.pyget f2).isNone)) = true
    · rw [if_pos hg1]
    · rw [if_neg hg1]
      have hvocab : buildVocab (fieldTexts ds f) = [] := by
        apply buildVocab_of_all_empty
        intro t ht
        rcases List.mem_map.1 ht with ⟨d, _, rfl⟩
        rw [pyget_absent d h1 h2 h3 h4 h5]
        rfl
      have hg2 : tfs.any
          (fun f2 => decide (buildVocab (fieldTexts ds f2) = [])) = true := by
        rw [List.any_eq_true]
        exact ⟨f, hf, by simp [hvocab]⟩
      rw [if_pos hg2]

/-- C3 witness: the amended claim evaluated at concrete inputs — the
absent attribute `summary` reads back as the empty string; the
empty-text chunk of a successfully fitted two-chunk corpus scores zero
on a query matching its sibling; `fit` fails on the null-text corpus;
and `fit` over the absent configured field `title` fails on the
three-chunk corpus. -/
theorem c3_missing_field_normalization_and_fit_failure_witness :
    cA.pyget "summary" = some "" ∧
    chunkScore sq1 lg0 ["chunk_text"] [cA, cEmpty] (fun _ => (1 : ℚ)) "aa"
      cEmpty = 0 ∧
    Index.fit ["chunk_text"] [cA, cNull] = none ∧
    Index.fit ["title"] [cA, cB, cC] = none :=
  ⟨(@c3_missing_field_normalization_and_fit_failure ℚ _).1 cA "summary"
      (by decide),
    (@c3_missing_field_normalization_and_fit_failure ℚ _).2.1 sq1 lg0
      ["chunk_text"] [cA, cEmpty] ⟨["chunk_text"], [cA, cEmpty]⟩ (fun _ => 1)
      "aa" cEmpty (by decide) (by decide) (by decide),
    (@c3_missing_field_normalization_and_fit_failure ℚ _).2.2.1 ["chunk_text"]
      [cA, cNull] cNull (by decide) (by decide) (by decide),
    (@c3_missing_field_normalization_and_fit_failure ℚ _).2.2.2 ["title"]
      [cA, cB, cC] "title" (by decide) (by decide)⟩

/-- C4: the feedback accumulation loop of `refine_search` adds the
transformed best-chunk vector of every prior document listed as positive
to the positive accumulator, and to the negative accumulator exactly the
documents listed as negative but not as positive (the `elif` skips the
negative branch for a document in both sets); a document in neither set
contributes to neither accumulator. -/
theorem c4_feedback_accumulators (sqrtFn logFn : K → K) (texts : List String)
    (positive negative : List String) :
    ∀ (rs : List (SearchResultsGroupedByDoc K)) (p n : List K),
      feedbackLoop sqrtFn logFn texts positive negative rs p n =
        ((rs.filter (fun r => decide (r.article.info.name ∈ positive))).foldl
            (fun acc r => vecAdd acc (transformVec sqrtFn logFn texts
              ((r.max_similarity_chunk.chunk.chunk_text).getD ""))) p,
          (rs.filter (fun r => !decide (r.article.info.name ∈ positive) &&
              decide (r.article.info.name ∈ negative))).foldl
            (fun acc r => vecAdd acc (transformVec sqrtFn logFn texts
              ((r.max_similarity_chunk.chunk.chunk_text).getD ""))) n) := by
  intro rs
  induction rs with
  | nil => intro p n; rfl
  | cons r rest ih =>
    intro p n
    by_cases hp : r.article.info.name ∈ positive
    · simp [feedbackLoop, hp, List.filter_cons, ih]
    · by_cases hn : r.article.info.name ∈ negative
      · simp [feedbackLoop, hp, hn, List.filter_cons, ih]
      · simp [feedbackLoop, hp, hn, List.filter_cons, ih]

/-- C7: a query whose every token is outside every field vocabulary of
the fitted corpus transforms to the zero vector, and the guarded cosine
similarity yields score 0 for every chunk — the score vector is
identically zero and no division by a zero norm occurs (the zero norm is
replaced by 1 before dividing). -/
theorem c7_oov_query_zero_scores (sqrtFn logFn : K → K) {tfs : List String}
    {ds : List ArticleChunk} {idx : Index}
    (_hfit : Index.fit tfs ds = some idx) (boost : String → K) {query : String}
    (hq : ∀ f ∈ tfs, ∀ t ∈ tokenize query, t ∉ buildVocab (fieldTexts ds f)) :
    scoresVec sqrtFn logFn tfs ds boost query = List.replicate ds.length 0 := by
  unfold scoresVec
  rw [List.map_congr_left
    (fun d _ => chunkScore_of_oov sqrtFn logFn tfs ds boost d hq)]
  exact map_const_replicate ds 0

/-- C7 witness: on the fitted three-chunk corpus the query `"zz qq"`
(both tokens out of vocabulary) scores zero on every chunk. -/
theorem c7_oov_query_zero_scores_witness :
    scoresVec sq1 lg0 ["chunk_text"] [cA, cB, cC] (fun _ => (1 : ℚ)) "zz qq" =
      List.replicate 3 0 :=
  @c7_oov_query_zero_scores ℚ _ sq1 lg0 ["chunk_text"] [cA, cB, cC] idx3
    (by decide) (fun _ => 1) "zz qq" (by decide)

/-- C8: the per-chunk score is invariant under permutation of the fitted
corpus — the learned vocabulary, document frequencies and idf weights
depend only on the multiset of corpus texts — so the score vector of a
permuted corpus is the permutation image of the original score vector
(both are the map of the same per-chunk score function over the
respective chunk orders). -/
theorem c8_scores_permutation_invariant (sqrtFn logFn : K → K)
    (tfs : List String) {ds1 ds2 : List ArticleChunk} (hp : ds1.Perm ds2)
    (boost : String → K) (query : String) :
    (∀ d, chunkScore sqrtFn logFn tfs ds2 boost query d =
        chunkScore sqrtFn logFn tfs ds1 boost query d) ∧
    scoresVec sqrtFn logFn tfs ds2 boost query =
      ds2.map (chunkScore sqrtFn logFn tfs ds1 boost query) := by
  constructor
  · intro d
    exact (chunkScore_perm sqrtFn logFn tfs hp boost query d).symm
  · unfold scoresVec
    exact List.map_congr_left
      (fun d _ => (chunkScore_perm sqrtFn logFn tfs hp boost query d).symm)

/-- C8 witness: the rotated three-chunk corpus scores every chunk
exactly as the original corpus does. -/
theorem c8_scores_permutation_invariant_witness :
    scoresVec sq1 lg0 ["chunk_text"] [cC, cA, cB] (fun _ => (1 : ℚ)) "bb dd" =
      [cC, cA, cB].map
        (chunkScore sq1 lg0 ["chunk_text"] [cA, cB, cC] (fun _ => 1) "bb dd") :=
  (c8_scores_permutation_invariant sq1 lg0 ["chunk_text"] (by decide)
    (fun _ => 1) "bb dd").2

/-- C10: `group_search_results_by_doc` reads the query from the first
element of its input with an unguarded index access, so the empty input
run raises (`none`) instead of returning an empty result list, and every
non-empty input returns normally. -/
theorem c10_group_empty_fails :
    (Index.group_search_results_by_doc ([] : List (SearchResult K)) = none) ∧
    ∀ (r : SearchResult K) (rs : List (SearchResult K)),
      (Index.group_search_results_by_doc (r :: rs)).isSome = true :=
  ⟨rfl, fun _ _ => rfl⟩

/-- C2: every document-level result produced by the grouping routine
carries as members exactly the scored chunks of its document, and its
`weighted_similarity` is exactly `0.9 * max + 0.1 * mean` of the member
similarities, where `max` and `mean` are likewise computed over the
member similarities.  Over the exact field the identity is exact, hence
within any floating-point tolerance. -/
theorem c2_weighted_similarity_formula {rs : List (SearchResult K)}
    {out : List (SearchResultsGroupedByDoc K)}
    (hout : Index.group_search_results_by_doc rs = some out)
    (g : SearchResultsGroupedByDoc K) (hg : g ∈ out) :
    g.search_results_list =
        rs.filter (fun r => decide (r.chunk.article.info.name = g.article.info.name)) ∧
    g.max_similarity = npMax (g.search_results_list.map (fun r => r.similarity)) ∧
    g.mean_similarity =
      (g.search_results_list.map (fun r => r.similarity)).sum /
        ((g.search_results_list.map (fun r => r.similarity)).length : K) ∧
    g.weighted_similarity =
      (9 / 10 : K) * g.max_similarity + (1 / 10 : K) * g.mean_similarity := by
  rcases mem_group hout g hg with ⟨r0, rest, k, hrs, hk, rfl⟩
  have hne : groupMembers rs k ≠ [] := groupMembers_ne_nil hk
  have hname : (buildGroup r0.query rs k).article.info.name = k :=
    name_of_mem_groupMembers (headD_mem hne default)
  refine ⟨?_, rfl, rfl, rfl⟩
  show groupMembers rs k = rs.filter (fun r =>
    decide (r.chunk.article.info.name = (buildGroup r0.query rs k).article.info.name))
  rw [hname]
  rfl

/-- C2 witness: the formula evaluated on the head of the grouped demo
output. -/
theorem c2_weighted_similarity_formula_witness :
    (outDemo.headD default).weighted_similarity =
      (9 / 10 : ℚ) * (outDemo.headD default).max_similarity +
        (1 / 10 : ℚ) * (outDemo.headD default).mean_similarity :=
  (@c2_weighted_similarity_formula ℚ _ rsDemo outDemo (by decide)
    (outDemo.headD default) (by decide)).2.2.2

/-- C9: the grouped output is sorted by `weighted_similarity` in
non-increasing order, and in every group the best chunk is the member at
the first occurrence of the maximum similarity: it is the `i`-th member
for some in-range `i`, its similarity is the maximum of the member
similarities, and every earlier member has a strictly different (hence
smaller) similarity. -/
theorem c9_best_chunk_first_max_and_sorted {rs : List (SearchResult K)}
    {out : List (SearchResultsGroupedByDoc K)}
    (hout : Index.group_search_results_by_doc rs = some out) :
    out.Pairwise (fun a b => b.weighted_similarity ≤ a.weighted_similarity) ∧
    ∀ g ∈ out, ∃ i, i < g.search_results_list.length ∧
      g.max_similarity_chunk = g.search_results_list.getD i default ∧
      (g.search_results_list.getD i default).similarity =
        npMax (g.search_results_list.map (fun r => r.similarity)) ∧
      ∀ j < i, (g.search_results_list.getD j default).similarity ≠
        npMax (g.search_results_list.map (fun r => r.similarity)) := by
  refine ⟨group_sorted hout, ?_⟩
  intro g hg
  rcases mem_group hout g hg with ⟨r0, rest, k, hrs, hk, rfl⟩
  have hne : groupMembers rs k ≠ [] := groupMembers_ne_nil hk
  have hsne : groupSims rs k ≠ [] := by
    unfold groupSims
    intro hnil
    exact hne (List.map_eq_nil_iff.1 hnil)
  have hex : ∃ x ∈ groupSims rs k,
      (fun x => decide (x = npMax (groupSims rs k))) x = true :=
    ⟨npMax (groupSims rs k), npMax_mem hsne, by simp⟩
  rcases findIdx_spec (fun x => decide (x = npMax (groupSims rs k))) 0
    (groupSims rs k) hex with ⟨h1, h2, h3⟩
  have hlen : (groupSims rs k).length = (groupMembers rs k).length := by
    unfold groupSims
    simp
  have hi : npArgmax (groupSims rs k) < (groupMembers rs k).length := by
    rw [← hlen]
    exact h1
  refine ⟨npArgmax (groupSims rs k), hi, rfl, ?_, ?_⟩
  · have hmap := map_getD (fun r => r.similarity) (groupMembers rs k)
      (npArgmax (groupSims rs k)) hi default 0
    have h2v := of_decide_eq_true h2
    show (List.getD (groupMembers rs k) (npArgmax (groupSims rs k)) default).similarity =
      npMax (groupSims rs k)
    rw [← hmap]
    exact h2v
  · intro j hj
    have hjm : j < (groupMembers rs k).length := by
      rw [← hlen]
      exact Nat.lt_trans hj h1
    have hmap := map_getD (fun r => r.similarity) (groupMembers rs k) j hjm default 0
    have h3v := h3 j hj
    show ((groupMembers rs k).getD j default).similarity ≠ npMax (groupSims rs k)
    intro heq
    rw [← hmap] at heq
    exact (of_decide_eq_false h3v) heq

/-- C9 witness: sortedness of the grouped demo output, via the theorem
applied at the demo input. -/
theorem c9_best_chunk_first_max_and_sorted_witness :
    outDemo.Pairwise
      (fun a b => b.weighted_similarity ≤ a.weighted_similarity) :=
  (@c9_best_chunk_first_max_and_sorted ℚ _ rsDemo outDemo (by decide)).1

/-- C5: when the refined Rocchio query vector is the zero vector in every
configured field (zero magnitude), the cosine similarity of every corpus
chunk is 0 and the reranked chunk list of `refine_search` is the corpus
in its stable original order, each chunk carrying similarity 0. -/
theorem c5_zero_refined_query_ranking (sqrtFn logFn : K → K) (idx : Index)
    (rs : List (SearchResultsGroupedByDoc K)) (positive negative : List String)
    (alpha beta gamma : K) (query : String)
    (h0 : ∀ f ∈ idx.text_fields, ∀ x ∈ refinedQueryVec sqrtFn logFn
      (fieldTexts idx.docs f) positive negative alpha beta gamma query rs,
        x = 0) :
    refineRanked idx sqrtFn logFn rs positive negative alpha beta gamma query =
      idx.docs.map (fun d => ⟨query, (0 : K), d⟩) := by
  have hz : ∀ x ∈ refineScores idx sqrtFn logFn rs positive negative alpha
      beta gamma query, x = 0 := by
    intro x hx
    unfold refineScores at hx
    rcases List.mem_map.1 hx with ⟨d, _, rfl⟩
    apply List.sum_eq_zero
    intro y hy
    rcases List.mem_map.1 hy with ⟨f, hf, rfl⟩
    exact cosineSim_zero_left sqrtFn (h0 f hf) _
  unfold refineRanked
  set s := refineScores idx sqrtFn logFn rs positive negative alpha beta
    gamma query with hsdef
  have hlen : s.length = idx.docs.length := by
    rw [hsdef]
    unfold refineScores
    simp
  rw [hlen, min_self]
  rcases Nat.eq_zero_or_pos idx.docs.length with hn | hn
  · have hdocs : idx.docs = [] := List.length_eq_zero.1 hn
    have hs0 : s = [] := by
      rw [hsdef]
      unfold refineScores
      rw [hdocs]
      rfl
    rw [hs0, hdocs]
    rfl
  · have hk0 : idx.docs.length ≠ 0 := Nat.pos_iff_ne_zero.1 hn
    unfold topIndices
    rw [if_neg hk0, argsortDesc_of_all_zero hz, hlen,
      List.take_of_length_le (by simp)]
    have hcong : ∀ i ∈ List.range idx.docs.length,
        (⟨query, s.getD i 0, idx.docs.getD i default⟩ : SearchResult K) =
          (fun d => (⟨query, (0 : K), d⟩ : SearchResult K)) (idx.docs.getD i default) := by
      intro i _
      rw [getD_of_all_zero hz]
    rw [List.map_congr_left hcong]
    exact range_map_comp idx.docs
      (fun d => (⟨query, 0, d⟩ : SearchResult K)) default

/-- C5 witness: with all three Rocchio weights 0 the refined query vector
is the zero vector, and the reranked list is the corpus in original
order with all similarities 0. -/
theorem c5_zero_refined_query_ranking_witness :
    refineRanked idx3 sq1 lg0 [gD2] [] [] 0 0 0 "q" =
      [cA, cB, cC].map (fun d => (⟨"q", (0 : ℚ), d⟩ : SearchResult ℚ)) :=
  c5_zero_refined_query_ranking sq1 lg0 idx3 [gD2] [] [] 0 0 0 "q" (by decide)

/-- C6: `refine_search` requires a non-empty prior result list: on the
empty list the unguarded `search_results[0]` access raises (`none`), and
on a non-empty list the query string recovered from the first prior
element is the query of every returned document result. -/
theorem c6_refine_requires_nonempty (sqrtFn logFn : K → K) (idx : Index)
    (positive negative : List String) (alpha beta gamma : K) :
    idx.refine_search sqrtFn logFn [] positive negative alpha beta gamma =
      none ∧
    ∀ (r0 : SearchResultsGroupedByDoc K) rest out,
      idx.refine_search sqrtFn logFn (r0 :: rest) positive negative alpha
          beta gamma = some out →
      ∀ g ∈ out, g.query = r0.query := by
  constructor
  · rfl
  · intro r0 rest out h g hg
    rw [refine_search_cons_eq] at h
    split at h
    · exact absurd h (by simp)
    · split at h
      · exact absurd h (by simp)
      · cases hr : refineRanked idx sqrtFn logFn (r0 :: rest) positive
            negative alpha beta gamma r0.query with
        | nil =>
          rw [hr] at h
          exact absurd h (by simp [Index.group_search_results_by_doc])
        | cons y ys =>
          rw [hr] at h
          have hy : y.query = r0.query := by
            have hmem : y ∈ refineRanked idx sqrtFn logFn (r0 :: rest)
                positive negative alpha beta gamma r0.query := by
              rw [hr]
              simp
            unfold refineRanked at hmem
            rcases List.mem_map.1 hmem with ⟨i, _, rfl⟩
            rfl
          rw [group_queries h g hg, hy]

/-- C6 witness: refining a concrete non-empty prior list succeeds and
the top returned document carries the query recovered from the first
prior element. -/
theorem c6_refine_requires_nonempty_witness :
    (outR.headD default).query = gD2.query :=
  (c6_refine_requires_nonempty sq1 lg0 idx3 ["D2"] [] 0 1 0).2 gD2 [] outR
    (by decide) (outR.headD default) (by decide)

end Claims

end TfidfIndex
